import Mathlib

/-!
Verification of the connection-pool and discovery-loop core of the
consul-service-discovery package (`connmanager.go`), against its
natural-language specification.

The Go code is embedded shallowly:

* `*grpc.ClientConn` is a nullable pointer, modelled as `Option H` for an
  abstract handle type `H`;
* the map `conns : map[string]*managedConn` is modelled as an association
  list with at most one binding per key (Go map semantics is recovered by
  `poolFind`, which returns the first binding);
* side effects of closing connections are made explicit: each mutating
  operation returns, besides the new pool, the list of handles it closed
  (`mc.conn.Close()` emits the pointed-to handle; it is only ever reached
  on non-nil handles in reachable states);
* `time.Duration` (an int64 of nanoseconds) is modelled as `Int`, with
  Go's truncated integer division `Int.tdiv`;
* `rand.Int63n(n)`, which panics for `n <= 0`, is modelled by an oracle
  `draw : Int → Int` together with an `Option` result that is `none`
  exactly when the Go code would panic;
* the discovery loop body `watchService` is modelled as a step function on
  the loop state, taking the outcome of the Consul query (and of the
  random pick, DNS check and dial) as an explicit input.
-/

namespace ConsulServiceDiscovery

/-- `managedConn` couples a connection with its target address
(`connmanager.go`). The `conn` field is the nullable pointer
`*grpc.ClientConn`, hence `Option H`. -/
structure ManagedConn (H : Type) where
  target : String
  conn : Option H
deriving DecidableEq, Repr

/-- The pool `conns : map[string]*managedConn`, as an association list. -/
abbrev Pool (H : Type) : Type := List (String × ManagedConn H)

/-- Go map read `cm.conns[service]`: the first binding for the key. -/
def poolFind {H : Type} (pool : Pool H) (service : String) :
    Option (ManagedConn H) :=
  match pool with
  | [] => none
  | (k, mc) :: rest => if k = service then some mc else poolFind rest service

/-- Go map removal `delete(cm.conns, service)`: drops every binding for
the key (a well-formed map has at most one). -/
def mapDelete {H : Type} (pool : Pool H) (service : String) : Pool H :=
  match pool with
  | [] => []
  | (k, mc) :: rest =>
    if k = service then mapDelete rest service
    else (k, mc) :: mapDelete rest service

/-- Go map assignment `cm.conns[service] = mc` (overwrites any binding). -/
def mapInsert {H : Type} (pool : Pool H) (service : String)
    (mc : ManagedConn H) : Pool H :=
  (service, mc) :: mapDelete pool service

/-- `replaceConn` from `connmanager.go`, lines 251-272: swaps an existing
connection. Returns the new pool together with the list of handles the
call closed. The early-return branch fires when an entry exists whose
target equals the supplied target; there the new handle (if non-nil) is
closed and the pool is untouched. Otherwise the old handle (if an entry
exists) is closed, then the new entry is inserted when a connection was
supplied, and the key is deleted when not. -/
def replaceConn {H : Type} (pool : Pool H) (service : String)
    (conn : Option H) (target : String) : Pool H × List H :=
  match poolFind pool service with
  | some existing =>
    if existing.target = target then
      (pool, conn.toList)
    else
      match conn with
      | some c => (mapInsert pool service ⟨target, some c⟩, existing.conn.toList)
      | none => (mapDelete pool service, existing.conn.toList)
  | none =>
    match conn with
    | some c => (mapInsert pool service ⟨target, some c⟩, [])
    | none => (mapDelete pool service, [])

/-- `ErrConnNotFound` message (`connmanager.go` line 49). -/
def ErrConnNotFound : String := "grpc_connection_not_found"

/-- `GetConn` from `connmanager.go`, lines 178-188: a shared-lock read
returning the stored connection pointer, or a wrapped `ErrConnNotFound`
when no entry exists. It takes the pool by value and returns no pool:
it cannot modify it. -/
def GetConn {H : Type} (pool : Pool H) (service : String) :
    Except String (Option H) :=
  match poolFind pool service with
  | some mc => Except.ok mc.conn
  | none => Except.error (ErrConnNotFound ++ ": " ++ service)

/-- `CloseAll` from `connmanager.go`, lines 163-174: closes every held
handle (the loop body `mc.conn.Close()` emits the pointed-to handle of
each entry) and resets the map to a fresh empty one. -/
def CloseAll {H : Type} (pool : Pool H) : Pool H × List H :=
  ([], pool.filterMap (fun p => p.2.conn))

/-- Every entry of the pool holds a non-nil connection pointer. -/
def poolWF {H : Type} (pool : Pool H) : Bool :=
  pool.all (fun p => p.2.conn.isSome)

/-- `Stop` (`connmanager.go` line 160) just drains the pool. -/
def Stop {H : Type} (pool : Pool H) : Pool H × List H :=
  CloseAll pool

/-- The Consul `*api.Client`; only nil-ness matters to the constructor, a
nil pointer is `none : Option Client`. -/
inductive Client where
  | mk (idx : Nat)
deriving DecidableEq, Repr

/-- A `*zap.Logger`; a nil pointer is `none : Option Logger`. -/
inductive Logger where
  | nop
  | custom (idx : Nat)
deriving DecidableEq, Repr

/-- A `grpc.DialOption`, opaque to the manager. -/
inductive DialOpt where
  | transportCredentialsInsecure
  | extra (idx : Nat)
deriving DecidableEq, Repr

/-- The configuration fields of `ConnManager` (`connmanager.go` lines
91-102), without the lock. `refreshInterval` is a `time.Duration`, an
int64 count of nanoseconds. -/
structure ConnManager (H : Type) where
  client : Client
  watchList : List String
  conns : Pool H
  logger : Logger
  dialOpts : List DialOpt
  refreshInterval : Int

/-- One nanosecond and one second as `time.Duration` values. -/
def nanosecond : Int := 1

/-- `time.Second`. -/
def second : Int := 1000000000

/-- A functional option passed to `New`: the three `Option` constructors
of `connmanager.go` (`WithLogger`, `WithRefreshInterval`,
`WithDialOptions`), reified as data so that applying them is a function. -/
inductive ConfigOpt where
  | withLogger (lg : Option Logger)
  | withRefreshInterval (d : Int)
  | withDialOptions (extra : List DialOpt)
deriving DecidableEq, Repr

/-- Application of one functional option (`connmanager.go` lines 55-88):
`WithLogger` rejects a nil logger, `WithRefreshInterval` rejects a
non-positive duration, `WithDialOptions` appends and never fails. -/
def applyOpt {H : Type} (cm : ConnManager H) : ConfigOpt → Except String (ConnManager H)
  | .withLogger none => Except.error "nil logger"
  | .withLogger (some lg) => Except.ok { cm with logger := lg }
  | .withRefreshInterval d =>
    if d ≤ 0 then Except.error "interval_must_be_positive"
    else Except.ok { cm with refreshInterval := d }
  | .withDialOptions extra => Except.ok { cm with dialOpts := cm.dialOpts ++ extra }

/-- `New` (`connmanager.go` lines 112-137): rejects a nil client and an
empty service list, builds the defaults (empty pool, no-op logger, 30 s
interval, insecure credentials) and then applies the options in order,
returning the first error if any. -/
def New {H : Type} (client : Option Client) (services : List String)
    (opts : List ConfigOpt) : Except String (ConnManager H) :=
  match client with
  | none => Except.error "nil_consul_client"
  | some c =>
    if services.length = 0 then Except.error "empty_service_list"
    else
      opts.foldlM applyOpt
        { client := c
          watchList := services
          conns := []
          logger := Logger.nop
          dialOpts := [DialOpt.transportCredentialsInsecure]
          refreshInterval := 30 * second }

/-- An option is accepted by `applyOpt` (independently of the manager it
is applied to) iff it is a non-nil logger, a positive interval, or a
dial-option list. -/
def optOk : ConfigOpt → Bool
  | .withLogger lg => lg.isSome
  | .withRefreshInterval d => decide (0 < d)
  | .withDialOptions _ => true

/-- `backoff` (`connmanager.go` lines 275-279): jittered sleep duration
on failures. `delta := base / 2` uses Go's truncating int64 division,
`Int.tdiv`. `rand.Int63n(delta)` panics when `delta <= 0` (modelled as
`none`); otherwise it yields a uniform value in `[0, delta)`, modelled by
the oracle `draw`. -/
def backoff (base : Int) (draw : Int → Int) : Option Int :=
  let delta : Int := Int.tdiv base 2
  if delta ≤ 0 then none
  else some (base + draw delta)

/-- One `*api.ServiceEntry` as used by `watchService`: the service-level
address, the owning node's address, and the service port. -/
structure HealthEntry where
  serviceAddress : String
  nodeAddress : String
  servicePort : Nat
deriving DecidableEq, Repr, Inhabited

/-- The loop-local state of `watchService`: the `waitIdx` passed as
`WaitIndex` to the next blocking query, and the manager's pool. -/
structure WatchState (H : Type) where
  waitIdx : Nat
  pool : Pool H

/-- The outcome of the environment during one `watchService` iteration:
either the Consul query fails, or it returns `entries` and
`meta.LastIndex`, in which case `pick` is the value of
`rand.Intn(len(entries))`, `dnsOk` tells whether `net.LookupHost`
succeeded, and `dial` is the connection produced by `grpc.NewClient`
(`none` on dial failure). -/
inductive IterOutcome (H : Type) where
  | queryErr
  | query (entries : List HealthEntry) (lastIndex : Nat) (pick : Nat)
      (dnsOk : Bool) (dial : Option H)

/-- One iteration of the `watchService` loop body (`connmanager.go`
lines 191-248), as a function of the loop state and the environment's
outcome; returns the new state and the handles closed during the
iteration. On a query error the code logs, sleeps `backoff` and
`continue`s before `waitIdx = meta.LastIndex` runs, so the index and the
pool are unchanged. On success the index is recorded first; an empty
entry list submits `replaceConn(service, nil, "")`; otherwise the
`pick`-th entry is selected, its service address (or, when that is
empty, its node address) must resolve, and the dialed connection is
submitted with target `addr:port`. DNS and dial failures abandon the
iteration with the pool untouched. -/
def watchStep {H : Type} (service : String) (st : WatchState H) :
    IterOutcome H → WatchState H × List H
  | .queryErr => (st, [])
  | .query entries lastIndex pick dnsOk dial =>
    let st1 : WatchState H := { st with waitIdx := lastIndex }
    if entries.length = 0 then
      let r := replaceConn st1.pool service none ""
      ({ st1 with pool := r.1 }, r.2)
    else
      let selected := entries.getD pick default
      let addr := if selected.serviceAddress = "" then selected.nodeAddress
        else selected.serviceAddress
      if dnsOk then
        let target := addr ++ ":" ++ toString selected.servicePort
        match dial with
        | none => (st1, [])
        | some conn =>
          let r := replaceConn st1.pool service (some conn) target
          ({ st1 with pool := r.1 }, r.2)
      else (st1, [])

section PoolLemmas

variable {H : Type}

theorem poolFind_mapDelete_self (pool : Pool H) (service : String) :
    poolFind (mapDelete pool service) service = none := by
  induction pool with
  | nil => rfl
  | cons p rest ih =>
    obtain ⟨k, mc⟩ := p
    by_cases h : k = service
    · simpa [mapDelete, h] using ih
    · simpa [mapDelete, h, poolFind] using ih

theorem poolFind_mapDelete_other (pool : Pool H) (service s : String)
    (hne : s ≠ service) :
    poolFind (mapDelete pool service) s = poolFind pool s := by
  induction pool with
  | nil => rfl
  | cons p rest ih =>
    obtain ⟨k, mc⟩ := p
    by_cases h : k = service
    · have hks : ¬ k = s := fun hs => hne (hs ▸ h)
      simpa [mapDelete, h, poolFind, hks, Ne.symm hne] using ih
    · by_cases hks : k = s
      · simp [mapDelete, h, poolFind, hks, hne]
      · simpa [mapDelete, h, poolFind, hks, hne] using ih

theorem poolFind_mapInsert_self (pool : Pool H) (service : String)
    (mc : ManagedConn H) :
    poolFind (mapInsert pool service mc) service = some mc := by
  simp [mapInsert, poolFind]

theorem poolFind_mapInsert_other (pool : Pool H) (service s : String)
    (mc : ManagedConn H) (hne : s ≠ service) :
    poolFind (mapInsert pool service mc) s = poolFind pool s := by
  have : service ≠ s := fun h => hne h.symm
  simp [mapInsert, poolFind, this, poolFind_mapDelete_other pool service s hne]

theorem poolFind_mem (pool : Pool H) (service : String) (mc : ManagedConn H)
    (h : poolFind pool service = some mc) : (service, mc) ∈ pool := by
  induction pool with
  | nil => cases h
  | cons p rest ih =>
    obtain ⟨k, v⟩ := p
    by_cases hk : k = service
    · subst hk
      simp [poolFind] at h
      subst h
      exact List.mem_cons_self _ _
    · simp [poolFind, hk] at h
      exact List.mem_cons_of_mem _ (ih h)

theorem poolWF_mapDelete (pool : Pool H) (service : String)
    (h : poolWF pool = true) : poolWF (mapDelete pool service) = true := by
  induction pool with
  | nil => rfl
  | cons p rest ih =>
    simp [poolWF] at h ih
    obtain ⟨k, v⟩ := p
    by_cases hk : k = service
    · simpa [mapDelete, hk, poolWF] using ih h.2
    · simpa [mapDelete, hk, poolWF, h.1] using ih h.2

theorem poolWF_mapInsert (pool : Pool H) (service : String)
    (mc : ManagedConn H) (hmc : mc.conn.isSome = true)
    (h : poolWF pool = true) : poolWF (mapInsert pool service mc) = true := by
  have hd := poolWF_mapDelete pool service h
  simp [poolWF, mapInsert] at hd ⊢
  exact ⟨hmc, hd⟩

end PoolLemmas

theorem foldlM_applyOpt_isOk {H : Type} (opts : List ConfigOpt) :
    ∀ cm : ConnManager H,
      (opts.foldlM applyOpt cm).isOk = opts.all optOk := by
  induction opts with
  | nil => intro cm; rfl
  | cons o rest ih =>
    intro cm
    cases o with
    | withLogger lg =>
      cases lg with
      | none =>
        simp [List.foldlM, applyOpt, optOk, Bind.bind, Except.bind,
          Except.isOk, Except.toBool]
      | some lg =>
        simp [List.foldlM, applyOpt, optOk, Bind.bind, Except.bind, ih]
    | withRefreshInterval d =>
      by_cases hd : d ≤ 0
      · simp [List.foldlM, applyOpt, hd, optOk, Bind.bind, Except.bind,
          Except.isOk, Except.toBool, not_lt.mpr hd]
      · simp [List.foldlM, applyOpt, hd, optOk, Bind.bind, Except.bind, ih,
          lt_of_not_le hd]
    | withDialOptions extra =>
      simp [List.foldlM, applyOpt, optOk, Bind.bind, Except.bind, ih]

/-- C1: if the pool holds an entry for `service` whose target equals the
supplied target, then `replaceConn` with a newly supplied (non-nil)
connection closes exactly that new connection and returns the pool
unchanged: the existing entry (handle and target) stays installed and
nothing new is installed. -/
theorem replaceConn_same_target {H : Type} (pool : Pool H)
    (service target : String) (c : H) (existing : ManagedConn H)
    (hfind : poolFind pool service = some existing)
    (htgt : existing.target = target) :
    replaceConn pool service (some c) target = (pool, [c]) := by
  simp [replaceConn, hfind, htgt]

theorem replaceConn_same_target_witness :
    replaceConn [("svc", (⟨"t", some 1⟩ : ManagedConn Nat))] "svc" (some 2) "t"
      = ([("svc", ⟨"t", some 1⟩)], [2]) :=
  replaceConn_same_target _ "svc" "t" 2 ⟨"t", some 1⟩ rfl rfl

/-- C2: if the pool holds an entry for `service` whose target differs
from the supplied one and whose handle is the (non-nil) pointer `oldH`,
then `replaceConn` with a new connection closes exactly `[oldH]` — the
old handle, once — and afterwards maps `service` to the new entry (new
target, new handle). -/
theorem replaceConn_new_target {H : Type} (pool : Pool H)
    (service target : String) (c oldH : H) (existing : ManagedConn H)
    (hfind : poolFind pool service = some existing)
    (htgt : existing.target ≠ target)
    (hconn : existing.conn = some oldH) :
    (replaceConn pool service (some c) target).2 = [oldH] ∧
    poolFind (replaceConn pool service (some c) target).1 service
      = some ⟨target, some c⟩ := by
  refine ⟨?_, ?_⟩ <;>
    simp [replaceConn, hfind, htgt, hconn, poolFind_mapInsert_self]

theorem replaceConn_new_target_witness :
    (replaceConn [("svc", (⟨"t1", some 1⟩ : ManagedConn Nat))] "svc" (some 2) "t2").2 = [1] ∧
    poolFind (replaceConn [("svc", (⟨"t1", some 1⟩ : ManagedConn Nat))] "svc" (some 2) "t2").1 "svc"
      = some ⟨"t2", some 2⟩ :=
  replaceConn_new_target _ "svc" "t2" 2 1 ⟨"t1", some 1⟩ rfl (by decide) rfl

/-- C10: `replaceConn` is local to the service it is called with: the
binding of every other service name is unchanged, whatever the supplied
connection and target are. -/
theorem replaceConn_frame {H : Type} (pool : Pool H) (service : String)
    (conn : Option H) (target : String) (s : String) (hne : s ≠ service) :
    poolFind (replaceConn pool service conn target).1 s = poolFind pool s := by
  unfold replaceConn
  cases hfind : poolFind pool service with
  | some existing =>
    by_cases ht : existing.target = target
    · simp [ht]
    · cases conn <;>
        simp [ht, poolFind_mapInsert_other _ _ _ _ hne,
          poolFind_mapDelete_other _ _ _ hne]
  | none =>
    cases conn <;>
      simp [poolFind_mapInsert_other _ _ _ _ hne,
        poolFind_mapDelete_other _ _ _ hne]

theorem replaceConn_frame_witness :
    poolFind (replaceConn [("a", (⟨"t", some 1⟩ : ManagedConn Nat))] "a" (some 2) "u").1 "b"
      = poolFind [("a", (⟨"t", some 1⟩ : ManagedConn Nat))] "b" :=
  replaceConn_frame _ "a" (some 2) "u" "b" (by decide)

/-- C4: `GetConn` returns the held connection pointer when an entry for
the service exists, and the wrapped `ErrConnNotFound` error when none
does. It is a total function that takes the pool by value and returns
only the lookup result, so it can neither modify the pool nor crash. -/
theorem GetConn_spec {H : Type} (pool : Pool H) (service : String) :
    (∀ mc : ManagedConn H, poolFind pool service = some mc →
      GetConn pool service = Except.ok mc.conn) ∧
    (poolFind pool service = none →
      GetConn pool service = Except.error (ErrConnNotFound ++ ": " ++ service)) := by
  constructor
  · intro mc h
    simp [GetConn, h]
  · intro h
    simp [GetConn, h]

theorem GetConn_spec_witness :
    GetConn [("svc", (⟨"t", some 1⟩ : ManagedConn Nat))] "svc" = Except.ok (some 1) ∧
    GetConn ([] : Pool Nat) "svc" = Except.error (ErrConnNotFound ++ ": " ++ "svc") :=
  ⟨(GetConn_spec [("svc", ⟨"t", some 1⟩)] "svc").1 ⟨"t", some 1⟩ rfl,
   (GetConn_spec [] "svc").2 rfl⟩

/-- C3 counterexample: `replaceConn(service, nil, target)` does not
remove the entry when the existing entry's target equals the supplied
target string: the early-return branch fires before the nil check, so
the entry stays installed and no handle is closed. Concretely, with the
pool holding `svc ↦ (target "t", handle 1)`, the call
`replaceConn "svc" nil "t"` leaves the key present and closes nothing,
contradicting the claim that after every `replace(service, none)` the
key is absent and the existing handle closed. -/
theorem replaceConn_delete_cex :
    poolFind (replaceConn [("svc", (⟨"t", some 1⟩ : ManagedConn Nat))] "svc" none "t").1 "svc"
      ≠ none ∧
    (replaceConn [("svc", (⟨"t", some 1⟩ : ManagedConn Nat))] "svc" none "t").2 = [] := by
  exact ⟨by decide, rfl⟩

/-- C3 amended: for every `replaceConn(service, nil, target)` call in
which the supplied target string differs from the existing entry's
target (so in particular for the discovery loop's actual removal call,
which passes the empty target while installed targets are `host:port`
strings), the existing entry's handle (if any, and if non-nil) is closed
and the service key is absent from the pool afterwards. -/
theorem replaceConn_delete {H : Type} (pool : Pool H)
    (service target : String)
    (hne : ∀ e : ManagedConn H, poolFind pool service = some e → e.target ≠ target) :
    poolFind (replaceConn pool service none target).1 service = none ∧
    (replaceConn pool service none target).2
      = (poolFind pool service).elim [] (fun e => e.conn.toList) := by
  cases hfind : poolFind pool service with
  | some existing =>
    have ht := hne existing hfind
    simp [replaceConn, hfind, ht, poolFind_mapDelete_self]
  | none =>
    simp [replaceConn, hfind, poolFind_mapDelete_self]

theorem replaceConn_delete_witness :
    poolFind (replaceConn [("svc", (⟨"t", some 1⟩ : ManagedConn Nat))] "svc" none "").1 "svc"
      = none ∧
    (replaceConn [("svc", (⟨"t", some 1⟩ : ManagedConn Nat))] "svc" none "").2
      = (poolFind [("svc", (⟨"t", some 1⟩ : ManagedConn Nat))] "svc").elim []
          (fun e => e.conn.toList) :=
  replaceConn_delete [("svc", ⟨"t", some 1⟩)] "svc" ""
    (by
      intro e he
      simp [poolFind] at he
      subst he
      decide)

/-- C5: `CloseAll` empties the mapping, closes every handle held in the
pool (the handle of each entry whose pointer is non-nil — every entry,
in reachable states), and is idempotent: applied to the empty pool it
returns the empty pool and closes nothing, so a second call after a
first is a no-op; `Stop` is literally `CloseAll`. -/
theorem CloseAll_spec {H : Type} (pool : Pool H) :
    (CloseAll pool).1 = [] ∧
    (∀ p ∈ pool, ∀ h : H, p.2.conn = some h → h ∈ (CloseAll pool).2) ∧
    CloseAll ((CloseAll pool).1) = (([] : Pool H), ([] : List H)) ∧
    Stop pool = CloseAll pool := by
  refine ⟨rfl, ?_, rfl, rfl⟩
  intro p hp h hconn
  simp only [CloseAll, List.mem_filterMap]
  exact ⟨p, hp, hconn⟩

theorem CloseAll_spec_witness :
    (CloseAll [("svc", (⟨"t", some 5⟩ : ManagedConn Nat))]).1 = [] ∧
    5 ∈ (CloseAll [("svc", (⟨"t", some 5⟩ : ManagedConn Nat))]).2 ∧
    CloseAll ((CloseAll [("svc", (⟨"t", some 5⟩ : ManagedConn Nat))]).1)
      = (([] : Pool Nat), ([] : List Nat)) :=
  ⟨(CloseAll_spec [("svc", ⟨"t", some 5⟩)]).1,
   (CloseAll_spec [("svc", ⟨"t", some 5⟩)]).2.1 ("svc", ⟨"t", some 5⟩)
     (List.mem_singleton.mpr rfl) 5 rfl,
   (CloseAll_spec [("svc", ⟨"t", some 5⟩)]).2.2.1⟩

/-- C6: construction fails exactly on the configuration errors — a nil
client, an empty service list, a `WithRefreshInterval` option with a
non-positive duration, or a `WithLogger` option with a nil logger — and
on every other input it succeeds. `New` returns an `Except`, so an error
comes with no manager and a success with one. -/
theorem New_ok_iff {H : Type} (client : Option Client)
    (services : List String) (opts : List ConfigOpt) :
    (New (H := H) client services opts).isOk = true ↔
      (client.isSome = true ∧ services ≠ [] ∧
        ∀ o ∈ opts, optOk o = true) := by
  cases client with
  | none => simp [New, Except.isOk, Except.toBool]
  | some c =>
    cases services with
    | nil => simp [New, Except.isOk, Except.toBool]
    | cons sv rest =>
      simp [New, foldlM_applyOpt_isOk, List.all_eq_true]

theorem New_ok_iff_witness :
    (New (H := Nat) (some (Client.mk 0)) ["users"]
        [ConfigOpt.withRefreshInterval second]).isOk = true :=
  (New_ok_iff (some (Client.mk 0)) ["users"] [ConfigOpt.withRefreshInterval second]).mpr
    ⟨rfl, by decide, by
      intro o ho
      simp at ho
      subst ho
      decide⟩

/-- C7 counterexample: the backoff delay is not defined for every
positive base. For `base = 1` (a one-nanosecond refresh interval, which
`WithRefreshInterval` accepts), `delta = base / 2 = 0` and
`rand.Int63n(0)` panics, so no delay in `[base, 1.5·base)` is produced:
the model returns `none` whatever the random draw. -/
theorem backoff_base_one_cex :
    (0 : Int) < 1 ∧ backoff 1 (fun _ => 0) = none := by
  exact ⟨by decide, rfl⟩

/-- C7 amended: for every configured base of at least two nanoseconds
(equivalently, whenever `base / 2` is positive so that `rand.Int63n`
does not panic) and every draw that is uniform-range-valid
(`0 ≤ draw n < n` for positive `n`), the backoff delay equals
`base + draw (base / 2)`, a value lying in `[base, 1.5·base)`. -/
theorem backoff_range (base : Int) (draw : Int → Int)
    (hbase : 2 ≤ base)
    (hdraw : ∀ n : Int, 0 < n → 0 ≤ draw n ∧ draw n < n) :
    backoff base draw = some (base + draw (Int.tdiv base 2)) ∧
    base ≤ base + draw (Int.tdiv base 2) ∧
    2 * (base + draw (Int.tdiv base 2)) < 3 * base := by
  have htd : Int.tdiv base 2 = base / 2 :=
    Int.tdiv_eq_ediv (by omega) (by omega)
  have hdelta : 0 < Int.tdiv base 2 := by rw [htd]; omega
  obtain ⟨hlo, hhi⟩ := hdraw (Int.tdiv base 2) hdelta
  refine ⟨?_, by omega, ?_⟩
  · simp [backoff, not_le.mpr hdelta]
  · have h2 : 2 * Int.tdiv base 2 ≤ base := by rw [htd]; omega
    omega

theorem backoff_range_witness :
    backoff 60 (fun _ : Int => 0) = some (60 + 0) ∧
    (60 : Int) ≤ 60 + 0 ∧ (2 : Int) * (60 + 0) < 3 * 60 :=
  backoff_range 60 (fun _ => 0) (by decide) (fun n hn => ⟨le_refl 0, hn⟩)

/-- C8: in the discovery loop, a failed Consul query changes nothing —
neither the `waitIdx` passed to the next blocking query nor the pool —
so after any number of consecutive failures the index equals its value
before the first failure; a successful query records the returned
`meta.LastIndex` as the next `waitIdx` in every one of its branches
(empty result, DNS failure, dial failure, and submit). -/
theorem watchService_index {H : Type} (service : String) :
    (∀ st : WatchState H, watchStep service st IterOutcome.queryErr = (st, [])) ∧
    (∀ (st : WatchState H) (n : Nat),
      ((fun s => (watchStep service s IterOutcome.queryErr).1)^[n] st).waitIdx
        = st.waitIdx) ∧
    (∀ (st : WatchState H) (entries : List HealthEntry)
        (lastIndex pick : Nat) (dnsOk : Bool) (dial : Option H),
      ((watchStep service st
          (IterOutcome.query entries lastIndex pick dnsOk dial)).1).waitIdx
        = lastIndex) := by
  refine ⟨fun st => rfl, ?_, ?_⟩
  · have hid : (fun s : WatchState H => (watchStep service s IterOutcome.queryErr).1)
        = id := funext fun s => rfl
    intro st n
    rw [hid, Function.iterate_id, id]
  · intro st entries lastIndex pick dnsOk dial
    cases entries <;> cases dnsOk <;> cases dial <;> rfl

/-- C9: pool entries never hold a nil connection pointer: the empty
initial pool (`New` starts from `conns := []`) is well formed, both
`replaceConn` (which only inserts entries built from a non-nil supplied
connection) and `CloseAll` preserve well-formedness, and on a
well-formed pool a successful `GetConn` returns a non-nil pointer. -/
theorem pool_conns_nonnil {H : Type} :
    poolWF ([] : Pool H) = true ∧
    (∀ (pool : Pool H) (service : String) (conn : Option H) (target : String),
      poolWF pool = true → poolWF (replaceConn pool service conn target).1 = true) ∧
    (∀ pool : Pool H, poolWF ((CloseAll pool).1) = true) ∧
    (∀ (pool : Pool H) (service : String) (c : Option H),
      poolWF pool = true → GetConn pool service = Except.ok c →
        c.isSome = true) := by
  refine ⟨rfl, ?_, fun pool => rfl, ?_⟩
  · intro pool service conn target hwf
    unfold replaceConn
    cases hfind : poolFind pool service with
    | some existing =>
      by_cases ht : existing.target = target
      · simpa [ht] using hwf
      · cases conn with
        | some c =>
          simpa [ht] using poolWF_mapInsert pool service ⟨target, some c⟩ rfl hwf
        | none => simpa [ht] using poolWF_mapDelete pool service hwf
    | none =>
      cases conn with
      | some c =>
        simpa using poolWF_mapInsert pool service ⟨target, some c⟩ rfl hwf
      | none => simpa using poolWF_mapDelete pool service hwf
  · intro pool service c hwf hget
    unfold GetConn at hget
    cases hfind : poolFind pool service with
    | some mc =>
      rw [hfind] at hget
      have hmem := poolFind_mem pool service mc hfind
      have hall := List.all_eq_true.mp hwf (service, mc) hmem
      cases hget
      simpa using hall
    | none => rw [hfind] at hget; cases hget

theorem pool_conns_nonnil_witness :
    poolWF (replaceConn ([] : Pool Nat) "svc" (some 1) "t").1 = true ∧
    Option.isSome (some (1 : Nat)) = true :=
  ⟨(pool_conns_nonnil (H := Nat)).2.1 [] "svc" (some 1) "t" rfl,
   (pool_conns_nonnil (H := Nat)).2.2.2 [("svc", ⟨"t", some 1⟩)] "svc" (some 1)
     rfl rfl⟩

end ConsulServiceDiscovery
